import Mathlib

/-!
# Shallow embedding of the image-editor core

Embeds the edit-session engine of the repository: `history_manager.py`
(bounded two-stack undo/redo), `image_model.py` (image holder and the
pixel-level operations it delegates to OpenCV), and the tool/session
orchestration of `app.py`.

Modelling conventions:
* `Img` stands for an opaque pixel buffer.  Buffers are compared
  bit-exactly and `img.copy()` produces a bit-identical buffer, so a copy
  is modelled as the value itself.
* Python lists used as stacks (`append` at the end, `pop()` from the end,
  `pop(0)` from the front) are modelled as Lean lists with the head as the
  stack top, so Python's index 0 (the oldest entry) is the *last* element
  of the Lean list and `pop(0)` is `List.dropLast`.
* External OpenCV kernels (`cv2.GaussianBlur`, `cv2.Canny`, `cv2.rotate`)
  are opaque function parameters: the claims are about when they are
  invoked and with which parameters, never about their pixel output.
* Calls that would raise in Python (e.g. `None.copy()`) are modelled with
  `Option`/`Except` results.
-/

abbrev Img : Type := Nat

/-- State of `HistoryManager` (`history_manager.py`): undo and redo stacks
of image snapshots and the bound `max_states` (constructor default 15). -/
structure HistoryManager where
  undo_stack : List Img
  redo_stack : List Img
  max_states : Nat
deriving DecidableEq

namespace HistoryManager

/-- `HistoryManager.__init__` at the default `max_states=15`, as the app
constructs it. -/
def init : HistoryManager := ⟨[], [], 15⟩

/-- `HistoryManager.clear`: empties both stacks. -/
def clear (h : HistoryManager) : HistoryManager :=
  { h with undo_stack := [], redo_stack := [] }

/-- `HistoryManager.push`: a `None` image is ignored; otherwise a copy is
appended onto the undo stack, the oldest entry (`pop(0)`, the last element
in this head-is-top encoding) is evicted when the bound is exceeded, and
the redo stack is cleared. -/
def push (h : HistoryManager) (img : Option Img) : HistoryManager :=
  match img with
  | none => h
  | some i =>
    let u := i :: h.undo_stack
    let u' := if u.length > h.max_states then u.dropLast else u
    { h with undo_stack := u', redo_stack := [] }

/-- `HistoryManager.can_undo` -/
def can_undo (h : HistoryManager) : Bool :=
  h.undo_stack.length > 0

/-- `HistoryManager.can_redo` -/
def can_redo (h : HistoryManager) : Bool :=
  h.redo_stack.length > 0

/-- `HistoryManager.undo`: when the undo stack is empty it returns `none`
and changes nothing; otherwise it pushes a copy of `current_img` onto the
redo stack and pops and returns the top of the undo stack.  The pair is
(returned image, updated manager). -/
def undo (h : HistoryManager) (current_img : Img) : Option Img × HistoryManager :=
  match h.undo_stack with
  | [] => (none, h)
  | top :: rest =>
      (some top, { h with undo_stack := rest, redo_stack := current_img :: h.redo_stack })

/-- `HistoryManager.redo`: symmetric to `undo`. -/
def redo (h : HistoryManager) (current_img : Img) : Option Img × HistoryManager :=
  match h.redo_stack with
  | [] => (none, h)
  | top :: rest =>
      (some top, { h with redo_stack := rest, undo_stack := current_img :: h.undo_stack })

end HistoryManager

/-- A single `HistoryManager` call, for reasoning over arbitrary call
sequences. -/
inductive HistOp where
  | clear : HistOp
  | push : Option Img → HistOp
  | undo : Img → HistOp
  | redo : Img → HistOp
deriving DecidableEq

/-- Apply one `HistoryManager` call (the state effect; returned images are
dropped). -/
def applyOp (h : HistoryManager) (op : HistOp) : HistoryManager :=
  match op with
  | .clear => h.clear
  | .push i => h.push i
  | .undo c => (h.undo c).2
  | .redo c => (h.redo c).2

/-- Apply a sequence of `HistoryManager` calls in order. -/
def applyOps (h : HistoryManager) (ops : List HistOp) : HistoryManager :=
  ops.foldl applyOp h

/-- `max_states` is fixed at construction and never changed by any call. -/
theorem applyOp_max_states (h : HistoryManager) (op : HistOp) :
    (applyOp h op).max_states = h.max_states := by
  cases op with
  | clear => rfl
  | push i =>
    cases i with
    | none => rfl
    | some j => simp [applyOp, HistoryManager.push]
  | undo c =>
    cases hu : h.undo_stack with
    | nil => simp [applyOp, HistoryManager.undo, hu]
    | cons a l => simp [applyOp, HistoryManager.undo, hu]
  | redo c =>
    cases hr : h.redo_stack with
    | nil => simp [applyOp, HistoryManager.redo, hr]
    | cons a l => simp [applyOp, HistoryManager.redo, hr]

/-- The inductive invariant behind the history bound: the two stacks
together never hold more than `max_states` snapshots.  `redo` moves an
entry from one stack to the other, so the sum is what one step preserves. -/
def sizeInv (h : HistoryManager) : Prop :=
  h.undo_stack.length + h.redo_stack.length ≤ h.max_states

theorem applyOp_sizeInv (h : HistoryManager) (op : HistOp) (hinv : sizeInv h) :
    sizeInv (applyOp h op) := by
  cases op with
  | clear =>
    simp [applyOp, HistoryManager.clear, sizeInv]
  | push i =>
    cases i with
    | none => exact hinv
    | some j =>
      simp only [applyOp, HistoryManager.push, sizeInv] at *
      split
      · simp only [List.length_dropLast, List.length_cons, List.length_nil]
        omega
      · simp only [List.length_cons, List.length_nil] at *
        omega
  | undo c =>
    cases hu : h.undo_stack with
    | nil => simpa [applyOp, HistoryManager.undo, hu] using hinv
    | cons a l =>
      simp only [applyOp, HistoryManager.undo, hu, sizeInv, List.length_cons] at *
      omega
  | redo c =>
    cases hr : h.redo_stack with
    | nil => simpa [applyOp, HistoryManager.redo, hr] using hinv
    | cons a l =>
      simp only [applyOp, HistoryManager.redo, hr, sizeInv, List.length_cons] at *
      omega

theorem applyOps_sizeInv (ops : List HistOp) (h : HistoryManager) (hinv : sizeInv h) :
    sizeInv (applyOps h ops) := by
  induction ops generalizing h with
  | nil => exact hinv
  | cons op rest ih =>
    exact ih (applyOp h op) (applyOp_sizeInv h op hinv)

theorem applyOps_max_states (ops : List HistOp) (h : HistoryManager) :
    (applyOps h ops).max_states = h.max_states := by
  induction ops generalizing h with
  | nil => rfl
  | cons op rest ih =>
    exact (ih (applyOp h op)).trans (applyOp_max_states h op)

/-- A non-absent push leaves the new snapshot on top of the undo stack and
clears the redo stack, whenever the bound is at least 1. -/
theorem push_some_shape (h : HistoryManager) (i : Img) (hmax : 0 < h.max_states) :
    ∃ t, (h.push (some i)).undo_stack = i :: t ∧ (h.push (some i)).redo_stack = [] := by
  have hps : (h.push (some i)).undo_stack
      = if (i :: h.undo_stack).length > h.max_states
        then (i :: h.undo_stack).dropLast else i :: h.undo_stack := rfl
  have hrs : (h.push (some i)).redo_stack = [] := rfl
  cases hu : h.undo_stack with
  | nil =>
    have hc : ¬ ((i :: ([] : List Img)).length > h.max_states) := by
      simp only [List.length_cons, List.length_nil]
      omega
    refine ⟨[], ?_, hrs⟩
    rw [hps, hu, if_neg hc]
  | cons a l =>
    by_cases hlen : (i :: a :: l).length > h.max_states
    · refine ⟨(a :: l).dropLast, ?_, hrs⟩
      rw [hps, hu, if_pos hlen]
      rfl
    · refine ⟨a :: l, ?_, hrs⟩
      rw [hps, hu, if_neg hlen]

/-- C1: for every undo stack, redo stack and pair of images, after
`push(pre)` and an edit replacing the current image with `post`,
`undo(post)` returns a buffer bit-exact equal to `pre` and pushes `post`
onto the redo stack; `redo(pre)` immediately afterwards returns a buffer
bit-exact equal to `post`. -/
theorem undo_redo_round_trip (h : HistoryManager) (pre post : Img)
    (hmax : h.max_states = 15) :
    ((h.push (some pre)).undo post).1 = some pre ∧
    (((h.push (some pre)).undo post).2).redo_stack.head? = some post ∧
    ((((h.push (some pre)).undo post).2).redo pre).1 = some post := by
  obtain ⟨t, hu, hr⟩ := push_some_shape h pre (by omega)
  refine ⟨?_, ?_, ?_⟩ <;>
    simp [HistoryManager.undo, HistoryManager.redo, hu, hr]

theorem undo_redo_round_trip_witness :
    ((HistoryManager.init.push (some 7)).undo 9).1 = some 7 ∧
    (((HistoryManager.init.push (some 7)).undo 9).2).redo_stack.head? = some 9 ∧
    ((((HistoryManager.init.push (some 7)).undo 9).2).redo 7).1 = some 9 :=
  undo_redo_round_trip HistoryManager.init 7 9 rfl

/-- C2: starting from empty stacks, no sequence of `HistoryManager` calls
(`clear`, `push`, `undo`, `redo` — `redo` appends to the undo stack with no
bound check) ever leaves more than 15 entries on the undo stack; and a push
performed while the undo stack already holds 15 entries evicts exactly the
oldest entry (Python index 0, the last element here), keeping the newest. -/
theorem undo_stack_bounded_and_evicts_oldest (ops : List HistOp)
    (h : HistoryManager) (i : Img)
    (hlen : h.undo_stack.length = 15) (hmax : h.max_states = 15) :
    (applyOps HistoryManager.init ops).undo_stack.length ≤ 15 ∧
    (h.push (some i)).undo_stack = i :: h.undo_stack.dropLast := by
  constructor
  · have hinv : sizeInv (applyOps HistoryManager.init ops) :=
      applyOps_sizeInv ops HistoryManager.init (by simp [sizeInv, HistoryManager.init])
    have hm : (applyOps HistoryManager.init ops).max_states = 15 :=
      applyOps_max_states ops HistoryManager.init
    simp only [sizeInv, hm] at hinv
    omega
  · cases hu : h.undo_stack with
    | nil => simp [hu] at hlen
    | cons a l =>
      have hgt : (i :: a :: l).length > h.max_states := by
        simp only [List.length_cons]
        rw [hu] at hlen
        simp only [List.length_cons] at hlen
        omega
      have hps : (h.push (some i)).undo_stack
          = if (i :: h.undo_stack).length > h.max_states
            then (i :: h.undo_stack).dropLast else i :: h.undo_stack := rfl
      rw [hps, hu, if_pos hgt]
      rfl

theorem undo_stack_bounded_and_evicts_oldest_witness :
    (applyOps HistoryManager.init []).undo_stack.length ≤ 15 ∧
    ((⟨List.range 15, [], 15⟩ : HistoryManager).push (some 99)).undo_stack
      = 99 :: (List.range 15).dropLast :=
  undo_stack_bounded_and_evicts_oldest [] ⟨List.range 15, [], 15⟩ 99 (by decide) rfl

/-- C5: pushing any non-absent image — which is what every successful edit
does via `_apply_and_show` — unconditionally leaves the redo stack empty,
so no redo is available past the new branch (in particular from any state
where a redo was available after an undo). -/
theorem push_clears_redo (h : HistoryManager) (i : Img) :
    (h.push (some i)).redo_stack = [] ∧ (h.push (some i)).can_redo = false := by
  simp [HistoryManager.push, HistoryManager.can_redo]

/-!
## The `ImageEditorApp` tool/session layer (`app.py`)

`AppState` carries the tool-relevant fields of `ImageEditorApp` together
with the two `ImageModel` buffers it reads (`model._original`,
`model._current`).  `current = none` iff no image is loaded, which is the
single gate `has_image()` checks.  `blur_level` is a `Nat`: the Python
field is an int but `decrease_blur` returns before ever driving it below
zero, so the reachable values coincide.
-/

structure AppState where
  original : Option Img
  current : Option Img
  hist : HistoryManager
  blur_level : Nat
  blur_base : Option Img
  brightness_level : Int
  contrast_level : Int
  bc_base : Option Img
  scale_level : Int
  scale_base : Option Img
  edge_applied : Bool
deriving DecidableEq

/-- `ImageEditorApp._reset_blur_state` -/
def reset_blur_state (s : AppState) : AppState :=
  { s with blur_level := 0, blur_base := none }

/-- `ImageEditorApp._reset_bc_state` -/
def reset_bc_state (s : AppState) : AppState :=
  { s with brightness_level := 0, contrast_level := 0, bc_base := none }

/-- `ImageEditorApp._reset_scale_state` -/
def reset_scale_state (s : AppState) : AppState :=
  { s with scale_level := 0, scale_base := none }

/-- `ImageEditorApp._reset_edge_state` -/
def reset_edge_state (s : AppState) : AppState :=
  { s with edge_applied := false }

/-- `ImageEditorApp._reset_all_tool_states` -/
def reset_all_tool_states (s : AppState) : AppState :=
  reset_edge_state (reset_scale_state (reset_bc_state (reset_blur_state s)))

/-- `ImageEditorApp._cancel_other_sessions_for`: resets every tool state
except the named one, touching neither the history nor the current image. -/
def cancel_other_sessions_for (tool_name : String) (s : AppState) : AppState :=
  let s1 := if tool_name ≠ "blur" then reset_blur_state s else s
  let s2 := if tool_name ≠ "bc" then reset_bc_state s1 else s1
  let s3 := if tool_name ≠ "scale" then reset_scale_state s2 else s2
  if tool_name ≠ "edge" then reset_edge_state s3 else s3

/-- `ImageEditorApp._apply_and_show`: pushes the pre-edit image onto the
history and commits the new image as current. -/
def apply_and_show (s : AppState) (new_img : Img) : AppState :=
  { s with hist := s.hist.push s.current, current := some new_img }

/-- `ImageEditorApp.apply_edges_once` with the external Canny pipeline
`ed` (`ImageModel.edge_detect`): no-op without an image or when the
`edge_applied` guard is set; otherwise one `_apply_and_show` commit, guard
set, other sessions cancelled. -/
def apply_edges_once (ed : Img → Img) (s : AppState) : AppState :=
  match s.current with
  | none => s
  | some c =>
    if s.edge_applied then s
    else
      cancel_other_sessions_for "edge"
        { apply_and_show s (ed c) with edge_applied := true }

/-- `ImageEditorApp.increase_blur` with the external `cv2.GaussianBlur`
as `gB` (second argument the kernel size `k`).  On the first step away
from rest it captures the base and pushes the pre-session image once.
Returns `none` where Python would raise (blurring an absent base, which
no reachable state triggers). -/
def increase_blur (gB : Img → Nat → Img) (s : AppState) : Option AppState :=
  match s.current with
  | none => some s
  | some c =>
    let s1 := if s.blur_level = 0
      then { s with blur_base := some c, hist := s.hist.push (some c) }
      else s
    let lvl := s1.blur_level + 1
    match s1.blur_base with
    | none => none
    | some b =>
      some (cancel_other_sessions_for "blur"
        { s1 with blur_level := lvl, current := some (gB b (2 * lvl + 1)) })

/-- `ImageEditorApp.decrease_blur`: no-op at rest; at level 1 it restores
the base verbatim and clears it (returning before the cancel call, as the
source does); above level 1 it recomputes from the base at the decremented
level. -/
def decrease_blur (gB : Img → Nat → Img) (s : AppState) : Option AppState :=
  match s.current with
  | none => some s
  | some _ =>
    if s.blur_level = 0 then some s
    else
      let lvl := s.blur_level - 1
      match s.blur_base with
      | none => none
      | some b =>
        if lvl = 0 then
          some { s with blur_level := 0, current := some b, blur_base := none }
        else
          some (cancel_other_sessions_for "blur"
            { s with blur_level := lvl, current := some (gB b (2 * lvl + 1)) })

/-- One press of the blur "+" or "-" button. -/
inductive BlurStep where
  | inc : BlurStep
  | dec : BlurStep
deriving DecidableEq

/-- Run a sequence of blur button presses, propagating failure. -/
def runBlurSteps (gB : Img → Nat → Img) (steps : List BlurStep) (s : AppState) :
    Option AppState :=
  match steps with
  | [] => some s
  | st :: rest =>
    match (match st with
           | .inc => increase_blur gB s
           | .dec => decrease_blur gB s) with
    | none => none
    | some s' => runBlurSteps gB rest s'

/-- `ImageEditorApp._ensure_bc_session`: on the first call of a
brightness/contrast session it captures `bc_base` from the current image
and pushes the pre-session image once; it always cancels the other tools'
sessions.  `none` models `None.copy()` raising when no image is loaded. -/
def ensure_bc_session (s : AppState) : Option AppState :=
  match s.bc_base with
  | some _ => some (cancel_other_sessions_for "bc" s)
  | none =>
    match s.current with
    | none => none
    | some c =>
      some (cancel_other_sessions_for "bc"
        { s with bc_base := some c, hist := s.hist.push (some c) })

/-- Modelled from the spec: the brightness "+" button handler
(`increase_brightness`) lies in the truncated tail of `app.py`; per
§4.2/§4.3 it no-ops without an image, ensures the brightness/contrast
session via `_ensure_bc_session`, increments the brightness level, and
recomputes the display from the session base (`bcApply` abstracts
`_apply_brightness_contrast` applied to `bc_base` at the current levels). -/
def increase_brightness (bcApply : Img → Int → Int → Img) (s : AppState) :
    Option AppState :=
  match s.current with
  | none => some s
  | some _ =>
    match ensure_bc_session s with
    | none => none
    | some s1 =>
      let s2 := { s1 with brightness_level := s1.brightness_level + 1 }
      match s2.bc_base with
      | none => none
      | some b =>
        some { s2 with current := some (bcApply b s2.brightness_level s2.contrast_level) }

/-- Modelled from the spec: the contrast "+" button handler
(`increase_contrast`), symmetric to `increase_brightness`, also in the
truncated tail of `app.py`. -/
def increase_contrast (bcApply : Img → Int → Int → Img) (s : AppState) :
    Option AppState :=
  match s.current with
  | none => some s
  | some _ =>
    match ensure_bc_session s with
    | none => none
    | some s1 =>
      let s2 := { s1 with contrast_level := s1.contrast_level + 1 }
      match s2.bc_base with
      | none => none
      | some b =>
        some { s2 with current := some (bcApply b s2.brightness_level s2.contrast_level) }

/-- Cancelling for "blur" resets exactly the brightness/contrast, scale
and edge states. -/
theorem cancel_for_blur (s : AppState) :
    cancel_other_sessions_for "blur" s
      = reset_edge_state (reset_scale_state (reset_bc_state s)) := rfl

/-- Cancelling for "bc" resets exactly the blur, scale and edge states. -/
theorem cancel_for_bc (s : AppState) :
    cancel_other_sessions_for "bc" s
      = reset_edge_state (reset_scale_state (reset_blur_state s)) := rfl

/-- Cancelling for "edge" resets exactly the blur, brightness/contrast and
scale states. -/
theorem cancel_for_edge (s : AppState) :
    cancel_other_sessions_for "edge" s
      = reset_scale_state (reset_bc_state (reset_blur_state s)) := rfl

/-- The blur-session invariant, relative to the session's pre-session image
`c0`: at rest the current image is `c0` and no base is held; mid-session
the base is `c0` and the current image is the blur of `c0` at kernel size
`2 * level + 1`. -/
def blurInv (gB : Img → Nat → Img) (c0 : Img) (s : AppState) : Prop :=
  (s.blur_level = 0 ∧ s.current = some c0 ∧ s.blur_base = none) ∨
  (1 ≤ s.blur_level ∧ s.blur_base = some c0 ∧
    s.current = some (gB c0 (2 * s.blur_level + 1)))

theorem increase_blur_inv (gB : Img → Nat → Img) (c0 : Img) (s : AppState)
    (hinv : blurInv gB c0 s) :
    ∃ s', increase_blur gB s = some s' ∧ blurInv gB c0 s' := by
  rcases hinv with ⟨h0, hc, hb⟩ | ⟨h1, hb, hc⟩
  · refine ⟨reset_edge_state (reset_scale_state (reset_bc_state
      { s with blur_base := some c0, hist := s.hist.push (some c0),
               blur_level := 1, current := some (gB c0 3) })), ?_, ?_⟩
    · simp [increase_blur, hc, h0, cancel_for_blur]
    · refine Or.inr ⟨?_, ?_, ?_⟩ <;>
        simp [reset_bc_state, reset_scale_state, reset_edge_state]
  · have hne : ¬ s.blur_level = 0 := by omega
    refine ⟨reset_edge_state (reset_scale_state (reset_bc_state
      { s with blur_level := s.blur_level + 1,
               current := some (gB c0 (2 * (s.blur_level + 1) + 1)) })), ?_, ?_⟩
    · simp [increase_blur, hc, hne, hb, cancel_for_blur]
    · refine Or.inr ⟨?_, ?_, ?_⟩ <;>
        simp [hb, reset_bc_state, reset_scale_state, reset_edge_state]

theorem decrease_blur_inv (gB : Img → Nat → Img) (c0 : Img) (s : AppState)
    (hinv : blurInv gB c0 s) :
    ∃ s', decrease_blur gB s = some s' ∧ blurInv gB c0 s' := by
  rcases hinv with ⟨h0, hc, hb⟩ | ⟨h1, hb, hc⟩
  · exact ⟨s, by simp [decrease_blur, hc, h0], Or.inl ⟨h0, hc, hb⟩⟩
  · have hne : ¬ s.blur_level = 0 := by omega
    by_cases hone : s.blur_level = 1
    · refine ⟨{ s with blur_level := 0, current := some c0, blur_base := none }, ?_, ?_⟩
      · simp [decrease_blur, hc, hne, hb, hone]
      · exact Or.inl ⟨rfl, rfl, rfl⟩
    · have hlvl : ¬ s.blur_level - 1 = 0 := by omega
      refine ⟨reset_edge_state (reset_scale_state (reset_bc_state
        { s with blur_level := s.blur_level - 1,
                 current := some (gB c0 (2 * (s.blur_level - 1) + 1)) })), ?_, ?_⟩
      · simp [decrease_blur, hc, hne, hb, hlvl, cancel_for_blur]
      · refine Or.inr ⟨?_, ?_, ?_⟩ <;>
          simp [hb, reset_bc_state, reset_scale_state, reset_edge_state]
        omega

theorem runBlurSteps_inv (gB : Img → Nat → Img) (c0 : Img) (steps : List BlurStep)
    (s : AppState) (hinv : blurInv gB c0 s) :
    ∃ s', runBlurSteps gB steps s = some s' ∧ blurInv gB c0 s' := by
  induction steps generalizing s with
  | nil => exact ⟨s, rfl, hinv⟩
  | cons st rest ih =>
    cases st with
    | inc =>
      obtain ⟨s1, h1, hinv1⟩ := increase_blur_inv gB c0 s hinv
      obtain ⟨s', h', hinv'⟩ := ih s1 hinv1
      exact ⟨s', by simp only [runBlurSteps, h1, h'], hinv'⟩
    | dec =>
      obtain ⟨s1, h1, hinv1⟩ := decrease_blur_inv gB c0 s hinv
      obtain ⟨s', h', hinv'⟩ := ih s1 hinv1
      exact ⟨s', by simp only [runBlurSteps, h1, h'], hinv'⟩

/-- C3: starting a blur session at rest on image `c0`, every sequence of
blur "+"/"-" presses succeeds and leaves a state determined by the final
level alone: at level `n ≥ 1` the current image is the Gaussian blur of
the session base `c0` at kernel size `2 * n + 1`, and when the level
returns to exactly 0 the current image is bit-identical to `c0` and the
base is cleared. -/
theorem blur_image_function_of_level (gB : Img → Nat → Img) (steps : List BlurStep)
    (s : AppState) (c0 : Img) (hc : s.current = some c0) (h0 : s.blur_level = 0)
    (hb : s.blur_base = none) :
    ∃ s', runBlurSteps gB steps s = some s' ∧
      ((s'.blur_level = 0 ∧ s'.current = some c0 ∧ s'.blur_base = none) ∨
       (1 ≤ s'.blur_level ∧ s'.blur_base = some c0 ∧
         s'.current = some (gB c0 (2 * s'.blur_level + 1)))) :=
  runBlurSteps_inv gB c0 steps s (Or.inl ⟨h0, hc, hb⟩)

theorem blur_image_function_of_level_witness :
    ∃ s', runBlurSteps (fun b k => b * 100 + k) [.inc, .inc, .dec]
        ⟨some 5, some 5, HistoryManager.init, 0, none, 0, 0, none, 0, none, false⟩
        = some s' ∧
      ((s'.blur_level = 0 ∧ s'.current = some 5 ∧ s'.blur_base = none) ∨
       (1 ≤ s'.blur_level ∧ s'.blur_base = some 5 ∧
         s'.current = some (5 * 100 + (2 * s'.blur_level + 1)))) :=
  blur_image_function_of_level (fun b k => b * 100 + k) [.inc, .inc, .dec]
    ⟨some 5, some 5, HistoryManager.init, 0, none, 0, 0, none, 0, none, false⟩ 5
    rfl rfl rfl

/-- C6: in any loaded-image state with a blur session active
(`blur_level ≥ 1`, base captured) and no brightness/contrast session yet,
the first brightness step and the first contrast step each reset the blur
session to rest (level 0, base cleared) and leave the history equal to the
old history with exactly one new pre-session snapshot pushed — no extra
push for ending the blur session. -/
theorem bc_first_step_cancels_blur_single_push (bcApply : Img → Int → Int → Img)
    (s : AppState) (c b : Img) (hc : s.current = some c) (hlvl : 1 ≤ s.blur_level)
    (hbase : s.blur_base = some b) (hbc : s.bc_base = none) :
    (∃ s', increase_brightness bcApply s = some s' ∧
      s'.blur_level = 0 ∧ s'.blur_base = none ∧ s'.bc_base = some c ∧
      s'.hist = s.hist.push (some c)) ∧
    (∃ s', increase_contrast bcApply s = some s' ∧
      s'.blur_level = 0 ∧ s'.blur_base = none ∧ s'.bc_base = some c ∧
      s'.hist = s.hist.push (some c)) := by
  constructor <;>
  · simp [increase_brightness, increase_contrast, ensure_bc_session, hc, hbc,
      cancel_for_bc, reset_blur_state, reset_scale_state, reset_edge_state]

theorem bc_first_step_cancels_blur_single_push_witness :
    (∃ s', increase_brightness (fun b _ _ => b)
        ⟨some 1, some 2, HistoryManager.init, 3, some 9, 0, 0, none, 0, none, false⟩
        = some s' ∧
      s'.blur_level = 0 ∧ s'.blur_base = none ∧ s'.bc_base = some 2 ∧
      s'.hist = HistoryManager.init.push (some 2)) ∧
    (∃ s', increase_contrast (fun b _ _ => b)
        ⟨some 1, some 2, HistoryManager.init, 3, some 9, 0, 0, none, 0, none, false⟩
        = some s' ∧
      s'.blur_level = 0 ∧ s'.blur_base = none ∧ s'.bc_base = some 2 ∧
      s'.hist = HistoryManager.init.push (some 2)) :=
  bc_first_step_cancels_blur_single_push (fun b _ _ => b)
    ⟨some 1, some 2, HistoryManager.init, 3, some 9, 0, 0, none, 0, none, false⟩
    2 9 rfl (by decide) rfl rfl

/-- C7: in any loaded-image state in which edge detection has not yet been
applied, calling `apply_edges_once` twice performs exactly one history push
and exactly one change of the current image: the second call, with the
`edge_applied` guard set, returns the state completely unchanged. -/
theorem edge_detection_once_idempotent (ed : Img → Img) (s : AppState) (c : Img)
    (hc : s.current = some c) (hg : s.edge_applied = false) :
    apply_edges_once ed (apply_edges_once ed s) = apply_edges_once ed s ∧
    (apply_edges_once ed s).current = some (ed c) ∧
    (apply_edges_once ed s).hist = s.hist.push (some c) := by
  have h1 : apply_edges_once ed s
      = cancel_other_sessions_for "edge"
          { apply_and_show s (ed c) with edge_applied := true } := by
    simp [apply_edges_once, hc, hg]
  rw [h1]
  refine ⟨?_, ?_, ?_⟩
  · simp [apply_edges_once, cancel_for_edge, reset_blur_state, reset_bc_state,
      reset_scale_state, apply_and_show]
  · simp [cancel_for_edge, reset_blur_state, reset_bc_state, reset_scale_state,
      apply_and_show]
  · simp [cancel_for_edge, reset_blur_state, reset_bc_state, reset_scale_state,
      apply_and_show, hc]

theorem edge_detection_once_idempotent_witness :
    apply_edges_once (fun i => i + 1)
        (apply_edges_once (fun i => i + 1)
          ⟨some 4, some 4, HistoryManager.init, 0, none, 0, 0, none, 0, none, false⟩)
      = apply_edges_once (fun i => i + 1)
          ⟨some 4, some 4, HistoryManager.init, 0, none, 0, 0, none, 0, none, false⟩ ∧
    (apply_edges_once (fun i => i + 1)
        ⟨some 4, some 4, HistoryManager.init, 0, none, 0, 0, none, 0, none, false⟩).current
      = some 5 ∧
    (apply_edges_once (fun i => i + 1)
        ⟨some 4, some 4, HistoryManager.init, 0, none, 0, 0, none, 0, none, false⟩).hist
      = HistoryManager.init.push (some 4) :=
  edge_detection_once_idempotent (fun i => i + 1)
    ⟨some 4, some 4, HistoryManager.init, 0, none, 0, 0, none, 0, none, false⟩ 4 rfl rfl

/-!
## Pixel arithmetic of `_apply_brightness_contrast` (`app.py`)

The numpy pipeline `img.astype(np.float32)`,
`(img - 128.0) * contrast + 128.0 + brightness`, `np.clip(img, 0, 255)`,
`.astype(np.uint8)` is modelled with exact rational arithmetic per sample.
The final `astype(np.uint8)` C-cast truncates toward zero, which on the
clamped nonnegative value is the floor.
-/

/-- The contrast multiplier `max(0.2, min(4.0, 1.0 + contrast_level * 0.08))`. -/
def bc_contrast (contrast_level : Int) : ℚ :=
  max (1/5 : ℚ) (min (4 : ℚ) (1 + (contrast_level : ℚ) * (8/100)))

/-- One sample through `_apply_brightness_contrast`: brightness offset
`brightness_level * 12` (an int), then `(p - 128) * contrast + 128 +
brightness`, clipped to `[0, 255]` and truncated to an integer sample. -/
def bc_pixel (brightness_level contrast_level : Int) (p : Nat) : Nat :=
  (⌊max 0 (min 255 (((p : ℚ) - 128) * bc_contrast contrast_level + 128
      + ((brightness_level * 12 : Int) : ℚ)))⌋).toNat

/-- The transform exactly as the spec words it, with rounding to the
nearest integer sample:
`out = clamp((p - 128) * contrastMultiplier + 128 + brightnessOffset, 0, 255)`
with `brightnessOffset = brightnessLevel * 12` and
`contrastMultiplier = clamp(1.0 + contrastLevel * 0.08, 0.2, 4.0)`. -/
def bc_pixel_spec_round (brightness_level contrast_level : Int) (p : Nat) : Nat :=
  (round (max 0 (min 255 (((p : ℚ) - 128)
      * max (1/5 : ℚ) (min (4 : ℚ) (1 + (contrast_level : ℚ) * (8/100)))
      + 128 + (brightness_level : ℚ) * 12)))).toNat

/-- The same formula with truncation (floor of the clamped value) in place
of rounding — what the code's `astype(np.uint8)` actually does. -/
def bc_pixel_spec_floor (brightness_level contrast_level : Int) (p : Nat) : Nat :=
  (⌊max 0 (min 255 (((p : ℚ) - 128)
      * max (1/5 : ℚ) (min (4 : ℚ) (1 + (contrast_level : ℚ) * (8/100)))
      + 128 + (brightness_level : ℚ) * 12))⌋).toNat

/-- C4 counterexample: at levels `(0, 5)` the multiplier is `1.4` and
sample 200 maps to `228.8`; the claimed round-to-nearest formula gives
229, but the code truncates and yields 228. -/
theorem bc_pixel_truncates_not_rounds :
    bc_pixel 0 5 200 = 228 ∧ bc_pixel_spec_round 0 5 200 = 229 ∧
    (228 : Nat) ≠ 229 := by
  refine ⟨?_, ?_, by decide⟩
  · norm_num [bc_pixel, bc_contrast, min_def, max_def]
    decide
  · norm_num [bc_pixel_spec_round, round_eq, min_def, max_def]
    decide

/-- C4 (amended): each sample maps to
`clamp((p - 128) * contrastMultiplier + 128 + brightnessOffset, 0, 255)`
truncated toward zero (floor of the clamped value) rather than rounded to
the nearest integer, with `brightnessOffset = brightnessLevel * 12` and
`contrastMultiplier = clamp(1.0 + contrastLevel * 0.08, 0.2, 4.0)`; at
levels `(2, 0)` a mid-gray sample 128 yields 152, and at levels `(0, 5)` a
sample of 200 yields 228 (228.8 truncated). -/
theorem bc_pixel_formula (brightness_level contrast_level : Int) (p : Nat) :
    bc_pixel brightness_level contrast_level p
      = bc_pixel_spec_floor brightness_level contrast_level p ∧
    bc_pixel 2 0 128 = 152 ∧ bc_pixel 0 5 200 = 228 := by
  refine ⟨?_, ?_, ?_⟩
  · simp only [bc_pixel, bc_pixel_spec_floor, bc_contrast]
    push_cast
    ring_nf
  · norm_num [bc_pixel, bc_contrast, min_def, max_def]
    decide
  · norm_num [bc_pixel, bc_contrast, min_def, max_def]
    decide

/-!
## `ImageModel.resize_scale` dimensions (`image_model.py`)

Python computes `int(w * scale_percent / 100)`: true division followed by
`int()`, which truncates toward zero (`Int.tdiv`), then takes
`max(1, ·)`.  For machine-size operands the float quotient truncates to
the same integer as the exact one, so the division is modelled exactly.
-/

def resize_dims (w h : Nat) (scale_percent : Int) : Nat × Nat :=
  (max 1 (Int.tdiv ((w : Int) * scale_percent) 100).toNat,
   max 1 (Int.tdiv ((h : Int) * scale_percent) 100).toNat)

/-- The dimension formula as the spec words it:
`round(originalDimension * percent / 100)` to the nearest integer,
minimum 1 pixel per axis. -/
def resize_dims_spec_round (w h : Nat) (scale_percent : Int) : Nat × Nat :=
  (max 1 (round ((w : ℚ) * (scale_percent : ℚ) / 100)).toNat,
   max 1 (round ((h : ℚ) * (scale_percent : ℚ) / 100)).toNat)

/-- The formula with the fraction truncated (floored) instead of rounded —
what `int()` actually does on the nonnegative quotients that arise. -/
def resize_dims_spec_floor (w h : Nat) (scale_percent : Int) : Nat × Nat :=
  (max 1 ⌊(w : ℚ) * (scale_percent : ℚ) / 100⌋.toNat,
   max 1 ⌊(h : ℚ) * (scale_percent : ℚ) / 100⌋.toNat)

theorem tdiv_hundred_toNat (n : ℤ) : (Int.tdiv n 100).toNat = (n / 100).toNat := by
  cases n with
  | ofNat m =>
    have h1 : Int.tdiv (Int.ofNat m) 100 = Int.ofNat (m / 100) := rfl
    rw [h1]
    simp only [Int.ofNat_eq_natCast]
    omega
  | negSucc m =>
    have h1 : Int.tdiv (Int.negSucc m) 100 = -Int.ofNat ((m+1) / 100) := rfl
    rw [h1, Int.negSucc_eq]
    simp only [Int.ofNat_eq_natCast]
    omega

theorem floor_intdiv_hundred (n : ℤ) : ⌊(n : ℚ) / 100⌋ = n / 100 := by
  simpa using Rat.floor_intCast_div_natCast n 100

theorem resize_axis_eq (w : Nat) (p : Int) :
    (Int.tdiv ((w : Int) * p) 100).toNat = ⌊(w : ℚ) * (p : ℚ) / 100⌋.toNat := by
  have hc : (w : ℚ) * (p : ℚ) = (((w : Int) * p : Int) : ℚ) := by push_cast; ring
  rw [hc, floor_intdiv_hundred, tdiv_hundred_toNat]

/-- C9 counterexample: a 5×5 image scaled to 30% gets `int(1.5) = 1` per
axis from the code, while the claimed round-to-nearest formula demands
`round(1.5) = 2`. -/
theorem resize_dims_truncate_not_round :
    resize_dims 5 5 30 = (1, 1) ∧ resize_dims_spec_round 5 5 30 = (2, 2) ∧
    ((1, 1) : Nat × Nat) ≠ (2, 2) := by
  refine ⟨by decide, ?_, by decide⟩
  norm_num [resize_dims_spec_round, round_eq]
  decide

/-- C9 (amended): for every image of width `w` and height `h` and every
scale percentage, the resized dimensions are the *floor* (truncation) of
`dimension * percent / 100`, with a minimum of 1 pixel per axis — not the
nearest-integer rounding. -/
theorem resize_dims_floor (w h : Nat) (p : Int) :
    resize_dims w h p = resize_dims_spec_floor w h p := by
  simp only [resize_dims, resize_dims_spec_floor, resize_axis_eq]

/-!
## `ImageModel.reset_to_original` and `ImageModel.rotate` (`image_model.py`)
-/

/-- The error taxonomy entry for an operation attempted before any load. -/
inductive EditError where
  | NoImageLoaded : EditError
deriving DecidableEq

/-- `ImageModel.reset_to_original`: replaces the current image by a copy of
the original when one exists; does nothing otherwise. -/
def model_reset_to_original (s : AppState) : AppState :=
  match s.original with
  | some o => { s with current := some o }
  | none => s

/-- Modelled from the spec: the app-level reset handler (`reset_image`)
lies in the truncated tail of `app.py`; per §4.3 `resetToOriginal()` fails
with `NoImageLoaded` if nothing was ever loaded (surfaced as an
informational message), otherwise pushes current history, commits a copy
of `original` via `ImageModel.reset_to_original`, and cancels all live
sessions. -/
def reset_image (s : AppState) : Except EditError AppState :=
  match s.current with
  | none => Except.error EditError.NoImageLoaded
  | some _ =>
    Except.ok (reset_all_tool_states
      (model_reset_to_original { s with hist := s.hist.push s.current }))

/-- C8: resetting to the original fails with `NoImageLoaded` when nothing
was ever loaded, and with an image loaded it commits a copy of the
original buffer as the current image. -/
theorem reset_to_original_behaviour (s : AppState) :
    (s.current = none → reset_image s = Except.error EditError.NoImageLoaded) ∧
    (∀ o c, s.original = some o → s.current = some c →
      ∃ s', reset_image s = Except.ok s' ∧ s'.current = some o) := by
  constructor
  · intro hc
    simp [reset_image, hc]
  · intro o c ho hc
    refine ⟨reset_all_tool_states
      (model_reset_to_original { s with hist := s.hist.push s.current }), ?_, ?_⟩
    · simp [reset_image, hc]
    · simp [reset_all_tool_states, model_reset_to_original, ho, reset_blur_state,
        reset_bc_state, reset_scale_state, reset_edge_state]

theorem reset_to_original_behaviour_witness :
    reset_image ⟨none, none, HistoryManager.init, 0, none, 0, 0, none, 0, none, false⟩
      = Except.error EditError.NoImageLoaded ∧
    ∃ s', reset_image
        ⟨some 3, some 8, HistoryManager.init, 0, none, 0, 0, none, 0, none, false⟩
      = Except.ok s' ∧ s'.current = some 3 :=
  ⟨(reset_to_original_behaviour
      ⟨none, none, HistoryManager.init, 0, none, 0, 0, none, 0, none, false⟩).1 rfl,
   (reset_to_original_behaviour
      ⟨some 3, some 8, HistoryManager.init, 0, none, 0, 0, none, 0, none, false⟩).2
      3 8 rfl rfl⟩

/-- `ImageModel.rotate`: `r90`, `r180`, `r270` stand for the three
`cv2.rotate` calls; any other angle falls through and the method returns
`self._current` itself, unchanged and without error. -/
def model_rotate (r90 r180 r270 : Img → Img) (s : AppState) (angle : Int) :
    Option Img :=
  if angle = 90 then s.current.map r90
  else if angle = 180 then s.current.map r180
  else if angle = 270 then s.current.map r270
  else s.current

/-- C10: with an image loaded, rotating by any angle outside
`{90, 180, 270}` returns the current buffer itself unchanged (identity
fallback) instead of rejecting the angle. -/
theorem rotate_invalid_angle_identity (r90 r180 r270 : Img → Img) (s : AppState)
    (c : Img) (angle : Int) (hc : s.current = some c)
    (h90 : angle ≠ 90) (h180 : angle ≠ 180) (h270 : angle ≠ 270) :
    model_rotate r90 r180 r270 s angle = some c := by
  simp [model_rotate, h90, h180, h270, hc]

theorem rotate_invalid_angle_identity_witness :
    model_rotate id id id
      ⟨some 2, some 6, HistoryManager.init, 0, none, 0, 0, none, 0, none, false⟩ 45
      = some 6 :=
  rotate_invalid_angle_identity id id id
    ⟨some 2, some 6, HistoryManager.init, 0, none, 0, 0, none, 0, none, false⟩
    6 45 rfl (by decide) (by decide) (by decide)
